import Mathlib

/-!
Shallow embedding of the Thorin tasks plugin core
(`src/lib/taskEntry.js`, `src/lib/taskContext.js`, `src/index.js`).

JavaScript values that flow through the scheduling code are modelled by
`JSVal` (numbers as `Int`, strings, `undefined`).  `NaN` is modelled as
`Option.none` wherever an arithmetic result can be `NaN`.  Time is
modelled in integer milliseconds; the process is single-threaded
(event-loop semantics), so callbacks run atomically in some order.
-/

namespace Tasks

/-- A JavaScript value as it appears in the schedule options and the
context delay override: a (non-NaN) number, a string, or `undefined`. -/
inductive JSVal : Type
  | num (n : Int)
  | str (s : String)
  | undef
deriving DecidableEq

/-- JS truthiness for the values we model (`0`, `""`, `undefined` are falsy). -/
def jsTruthy : JSVal → Bool
  | .num n => n ≠ 0
  | .str s => s ≠ ""
  | .undef => false

/-- NaN-propagating addition (`none` is NaN). -/
def jsAdd : Option Int → Option Int → Option Int
  | some a, some b => some (a + b)
  | _, _ => none

/-- NaN-propagating multiplication (`none` is NaN). -/
def jsMul : Option Int → Option Int → Option Int
  | some a, some b => some (a * b)
  | _, _ => none

/-- Numeric value of a list of decimal digit characters. -/
def digitsVal (ds : List Char) : Nat :=
  ds.foldl (fun acc c => 10 * acc + (c.toNat - '0'.toNat)) 0

/-- Leading digit run of a character list: `parseInt` consumes it. -/
def leadDigits (s : List Char) : List Char :=
  s.takeWhile (fun c => c.isDigit)

/-- JavaScript `parseInt(s, 10)` on a token: optional sign followed by a
leading run of decimal digits; `none` models `NaN` (no digits). -/
def jsParseInt : List Char → Option Int
  | [] => none
  | c :: rest =>
    if c = '-' then
      if leadDigits rest = [] then none
      else some (-(digitsVal (leadDigits rest) : Int))
    else if c = '+' then
      if leadDigits rest = [] then none
      else some ((digitsVal (leadDigits rest) : Int))
    else
      if leadDigits (c :: rest) = [] then none
      else some ((digitsVal (leadDigits (c :: rest)) : Int))

/-- JS `String.prototype.replace(c, '')` with a single-character pattern:
removes the first occurrence of `c` only. -/
def removeFirst (c : Char) : List Char → List Char
  | [] => []
  | x :: xs => if x = c then xs else x :: removeFirst c xs

/-- JS `String.prototype.split(' ')` on the character list of a string:
splits at every single space, keeping empty pieces (`"" → [""]`). -/
def splitTok : List Char → List (List Char)
  | [] => [[]]
  | c :: rest =>
    match splitTok rest with
    | [] => [[]]
    | t :: ts => if c = ' ' then [] :: t :: ts else (c :: t) :: ts

/-- The four `indexOf` checks of `getSeconds` on one token (source
`taskEntry.js` lines 846-860): each check overwrites `type` (and the
multiplier for `m`/`h`/`d`); when no unit letter occurs in the token,
`type` keeps the value left over from the previous iteration (`var`
hoisting) while the multiplier has been re-initialised to `1`. -/
def tokUnit (tok : List Char) (prev : Option Char) : Option Char × Int :=
  let r := (prev, (1 : Int))
  let r := if tok.contains 's' then (some 's', r.2) else r
  let r := if tok.contains 'm' then (some 'm', (60 : Int)) else r
  let r := if tok.contains 'h' then (some 'h', (3600 : Int)) else r
  let r := if tok.contains 'd' then (some 'd', (86400 : Int)) else r
  r

/-- The token loop of `getSeconds` (source lines 841-865).  `prev` is the
`var`-hoisted `type` variable, `total` the running sum (`none` = NaN).
`if (!type) return 0` aborts the whole call with `0`. -/
def getSecondsTokens : List (List Char) → Option Char → Option Int → Option Int
  | [], _, total => total
  | tok :: rest, prev, total =>
    match (tokUnit tok prev).1 with
    | none => some 0
    | some c =>
      let nr := jsParseInt (removeFirst c tok)
      getSecondsTokens rest (some c) (jsAdd total (jsMul nr (some (tokUnit tok prev).2)))

/-- `getSeconds` (source `taskEntry.js` lines 836-869): a number is
clamped to `max 0`, a string is split on single spaces and the tokens are
summed, anything else yields `0`.  `none` models a `NaN` result. -/
def getSeconds : JSVal → Option Int
  | .num n => some (max 0 n)
  | .str s => getSecondsTokens (splitTok s.data) none (some 0)
  | .undef => some 0

/-- JS numeric coercion `Number(v)` restricted to the values we model:
`none` is `NaN`.  A string of (optionally signed) decimal digits converts
to its value, the empty string to `0`, other strings to `NaN`. -/
def jsToNumber : JSVal → Option Int
  | .num n => some n
  | .str s =>
    match s.data with
    | [] => some 0
    | '-' :: rest =>
      if rest ≠ [] ∧ rest.all Char.isDigit then some (-(digitsVal rest : Int)) else none
    | l => if l.all Char.isDigit then some (digitsVal l : Int) else none
  | .undef => none

/-- The per-run execution context (`src/lib/taskContext.js`).  JS own
string-keyed properties are modelled as `Option`-wrapped fields where
`none` means the property has been deleted; the next-delay override lives
under a private `Symbol` key (`delaySym`), which `Object.keys` does not
see.  `Cfg` is the type of the task's configuration object. -/
structure TaskContext (Cfg : Type) where
  start_at : Option Int
  end_at : Option (Option Int)
  stopped : Option Bool
  config : Option Cfg
  error : Option (Option JSVal)
  delaySym : Option JSVal

/-- `new TaskContext(config)` at wall-clock `now` (`taskContext.js` 12-19). -/
def TaskContext.init (cfg : Cfg) (now : Int) : TaskContext Cfg :=
  ⟨some now, some none, some false, some cfg, some none, none⟩

/-- `destroy()` (`taskContext.js` 31-35): `Object.keys(this)` enumerates
only string-keyed own properties, so every such field is deleted while
the symbol-keyed delay override survives. -/
def TaskContext.destroy (ctx : TaskContext Cfg) : TaskContext Cfg :=
  ⟨none, none, none, none, none, ctx.delaySym⟩

/-- `stop()` (`taskContext.js` 26-29). -/
def TaskContext.stop (ctx : TaskContext Cfg) : TaskContext Cfg :=
  { ctx with stopped := some true }

/-- `delay()` with no argument (`taskContext.js` 40-44): `this[delay] || 0`. -/
def TaskContext.delayGet (ctx : TaskContext Cfg) : JSVal :=
  match ctx.delaySym with
  | some v => if jsTruthy v then v else .num 0
  | none => .num 0

/-- `delay(sec)` with a defined argument (`taskContext.js` 40-44). -/
def TaskContext.delaySet (ctx : TaskContext Cfg) (v : JSVal) : TaskContext Cfg :=
  { ctx with delaySym := some v }

/-- The schedule options object after `schedule()` has normalised it
(`taskEntry.js` 512-555).  `atTime`/`onAnchor` model `opt.at`/`opt.on`
(`none` = undefined or nulled-out invalid value, and we only put
non-empty strings inside `some`); `delaySec` is `opt.delay` after
`getSeconds`; `timer` is `opt.timer` as stored, which `schedule()` parses
to a number only in the non-`at` branch, so it stays a raw `JSVal`. -/
structure SchedOpt where
  atTime : Option String
  onAnchor : Option String
  delaySec : Option Int
  timer : Option JSVal
  timeout : Option Int

/-- `PERSIST_KEY` (`taskEntry.js` line 430): the task group's logger name
plus the constant suffix. -/
def persistKey (loggerName : String) : String := loggerName ++ ".startup"

/-- The persisted mapping task-name → resume timestamp; `none` for the
whole store models a falsy `thorin.persist(PERSIST_KEY)` result. -/
def PersistStore : Type := Option (String → Option Int)

/-- `setStartupDelay` (`taskEntry.js` 461-466): read the mapping (or
start from `{}`), set this task's own entry to `Date.now() + delayMs`
(`none` models a NaN delay) and write the whole mapping back. -/
def setStartupDelay (store : PersistStore) (taskName : String) (now : Int)
    (delayMs : Option Int) : String → Option Int :=
  fun k =>
    if k = taskName then jsAdd (some now) delayMs
    else match store with
      | some f => f k
      | none => none

/-- `getStartupDelay` (`taskEntry.js` 450-458): persisted timestamp minus
now, floored at `0`; `0` when the store or the entry is missing. -/
def getStartupDelay (store : PersistStore) (taskName : String) (now : Int) : Int :=
  match store with
  | none => 0
  | some f =>
    match f taskName with
    | none => 0
    | some startAfter => if startAfter - now < 0 then 0 else startAfter - now

/-- Observable side effects of the context-termination path, in program
order: the `thorin.persist` write (key plus the new value of this task's
own entry) and the `self.start(timerMs)` re-arm. -/
inductive TermEffect
  | persistW (key : String) (taskName : String) (ownValue : Option Int)
  | startW (delayMs : Option Int)
deriving DecidableEq

/-- `onContextTerminated` (`taskEntry.js` 664-678): destroy the context,
then — only when `opt.timer` is defined — compute
`opt.timer * 1000 + getSeconds(context delay) * 1000`, clamp a
non-positive result to `1`, persist `now + timerMs` under this task's
entry and re-arm with `timerMs`.  Returns the destroyed context and the
ordered effect list. -/
def onContextTerminated (opt : SchedOpt) (ctx : TaskContext Cfg)
    (loggerName taskName : String) (now : Int) : TaskContext Cfg × List TermEffect :=
  let ctx' := ctx.destroy
  match opt.timer with
  | none => (ctx', [])
  | some tv =>
    let nextDelay := jsMul (getSeconds ctx'.delayGet) (some 1000)
    let timerMs := jsAdd (jsMul (jsToNumber tv) (some 1000)) nextDelay
    let timerMs := match timerMs with
      | some v => if v ≤ 0 then some 1 else some v
      | none => none
    (ctx', [.persistW (persistKey loggerName) taskName (jsAdd (some now) timerMs),
            .startW timerMs])

/-! ### Wall-clock and calendar model

The source is timezone-naive (`new Date()`, `moment()` in local time);
we model local civil time directly, with no DST (every day is exactly
86,400,000 ms), years from 1970 up. -/

/-- A civil local timestamp: calendar date plus time of day in ms. -/
structure CivilTime where
  year : Nat
  month : Nat
  day : Nat
  todMs : Nat
deriving DecidableEq

/-- Gregorian leap year. -/
def isLeap (y : Nat) : Bool := (y % 4 = 0 && y % 100 ≠ 0) || y % 400 = 0

/-- Length of month `m` (1-12) of year `y`. -/
def daysInMonth (y m : Nat) : Nat :=
  if m = 2 then (if isLeap y then 29 else 28)
  else if m = 4 ∨ m = 6 ∨ m = 9 ∨ m = 11 then 30
  else 31

/-- Length of year `y` in days. -/
def daysInYear (y : Nat) : Nat := if isLeap y then 366 else 365

/-- Days of year `y` strictly before month `m` (1-12). -/
def daysBeforeMonth (y : Nat) : Nat → Nat
  | 0 => 0
  | 1 => 0
  | Nat.succ m => daysBeforeMonth y m + daysInMonth y m

/-- Days in the `n` years starting at 1970. -/
def daysFrom1970 : Nat → Nat
  | 0 => 0
  | Nat.succ n => daysFrom1970 n + daysInYear (1970 + n)

/-- Days since 1970-01-01 of the calendar date of `t` (years < 1970 are
out of the modelled domain). -/
def epochDays (t : CivilTime) : Nat :=
  daysFrom1970 (t.year - 1970) + daysBeforeMonth t.year t.month + (t.day - 1)

/-- Milliseconds since the epoch (`Date.now()` / `getTime()`). -/
def epochMs (t : CivilTime) : Int := (epochDays t : Int) * 86400000 + (t.todMs : Int)

/-- `moment(...).unix() * 1000`: the epoch timestamp truncated to whole
seconds, then scaled back to ms. -/
def unixMs (t : CivilTime) : Int := (epochMs t / 1000) * 1000

/-- Day of week of `t`, 0 = Sunday (1970-01-01 was a Thursday). -/
def dayOfWeek (t : CivilTime) : Nat := (epochDays t + 4) % 7

/-- A well-formed civil timestamp in the modelled domain. -/
def ValidTime (t : CivilTime) : Prop :=
  1970 ≤ t.year ∧ 1 ≤ t.month ∧ t.month ≤ 12 ∧
  1 ≤ t.day ∧ t.day ≤ daysInMonth t.year t.month ∧ t.todMs < 86400000

instance (t : CivilTime) : Decidable (ValidTime t) := by
  unfold ValidTime; infer_instance

/-- `moment().startOf('month')`. -/
def startOfMonth (t : CivilTime) : CivilTime := { t with day := 1, todMs := 0 }

/-- `moment().endOf('month').startOf('day')`: the last calendar day of
the month at 00:00:00.000. -/
def endOfMonthStartOfDay (t : CivilTime) : CivilTime :=
  { t with day := daysInMonth t.year t.month, todMs := 0 }

/-- `moment.add(1, 'month')`: next month, with the day-of-month clamped
to the next month's length. -/
def addMonthClamp (t : CivilTime) : CivilTime :=
  let y' := if t.month = 12 then t.year + 1 else t.year
  let m' := if t.month = 12 then 1 else t.month + 1
  { year := y', month := m', day := min t.day (daysInMonth y' m'), todMs := t.todMs }

/-- Advance a civil time by one calendar day. -/
def addDaysOne (t : CivilTime) : CivilTime :=
  if t.day < daysInMonth t.year t.month then { t with day := t.day + 1 }
  else if t.month < 12 then { t with month := t.month + 1, day := 1 }
  else { year := t.year + 1, month := 1, day := 1, todMs := t.todMs }

/-- Move a civil time back by one calendar day. -/
def subDaysOne (t : CivilTime) : CivilTime :=
  if 1 < t.day then { t with day := t.day - 1 }
  else if 1 < t.month then { t with month := t.month - 1, day := daysInMonth t.year (t.month - 1) }
  else { year := t.year - 1, month := 12, day := 31, todMs := t.todMs }

/-- Advance by `n` calendar days. -/
def addDays (t : CivilTime) : Nat → CivilTime
  | 0 => t
  | Nat.succ n => addDaysOne (addDays t n)

/-- Move back by `n` calendar days. -/
def subDays (t : CivilTime) : Nat → CivilTime
  | 0 => t
  | Nat.succ n => subDaysOne (subDays t n)

/-- `moment().startOf('week')`: Sunday 00:00 of the current week
(moment's default locale starts the week on Sunday). -/
def startOfWeek (t : CivilTime) : CivilTime :=
  { subDays t (dayOfWeek t) with todMs := 0 }

/-- `moment().endOf('week').startOf('day')`: Saturday 00:00 of the
current week. -/
def weekEndStartOfDay (t : CivilTime) : CivilTime :=
  { addDays (subDays t (dayOfWeek t)) 6 with todMs := 0 }

/-- `moment.add(1, 'week')`. -/
def addWeek (t : CivilTime) : CivilTime := addDays t 7

/-- `getLaunchOn` (`taskEntry.js` 751-785): ms until the requested
calendar anchor.  The target of the current period is computed, compared
through `unix()*1000` against `Date.now()`, advanced by one period only
when that count is strictly negative, and the final count is returned.
A non-string or empty `d` and an unrecognised anchor name yield `0`. -/
def getLaunchOn (d : Option String) (now : CivilTime) : Int :=
  match d with
  | none => 0
  | some s =>
    if s = "" then 0
    else
      let ts := epochMs now
      if s = "month-start" ∨ s = "month-end" then
        let target := if s = "month-start" then startOfMonth now else endOfMonthStartOfDay now
        let count := unixMs target - ts
        let target := if count < 0 then addMonthClamp target else target
        unixMs target - ts
      else if s = "week-start" ∨ s = "week-end" then
        let target := if s = "week-start" then startOfWeek now else weekEndStartOfDay now
        let count := unixMs target - ts
        let target := if count < 0 then addWeek target else target
        unixMs target - ts
      else 0

/-- Generalisation of `splitTok` to any separator (JS `split(':')`). -/
def splitOnChar (sep : Char) : List Char → List (List Char)
  | [] => [[]]
  | c :: rest =>
    match splitOnChar sep rest with
    | [] => [[]]
    | t :: ts => if c = sep then [] :: t :: ts else (c :: t) :: ts

/-- The parsing and validation part of `getLaunchAt` (`taskEntry.js`
797-811): split on `':'`, `parseInt` the three pieces (`tmp[2] || 0`
turns a missing or empty seconds part into `0`), and reject whenever a
piece is NaN or out of the bounds `0 ≤ h ≤ 24`, `0 ≤ m ≤ 59`,
`0 ≤ s ≤ 59`.  `none` models the `return null` of the catch clause. -/
def getLaunchAtParse (d : String) : Option (Int × Int × Int) :=
  let tmp := splitOnChar ':' d.data
  let h? := jsParseInt (tmp.headD [])
  let m? := match tmp.get? 1 with
    | some t => jsParseInt t
    | none => none
  let s? := match tmp.get? 2 with
    | some t => if t = [] then some 0 else jsParseInt t
    | none => some 0
  match h?, m?, s? with
  | some h, some m, some s =>
    if h < 0 ∨ m < 0 ∨ s < 0 ∨ h > 24 ∨ m > 59 ∨ s > 59 then none
    else some (h, m, s)
  | _, _, _ => none

/-- Hour field of the wall clock (`new Date().getHours()`). -/
def hourOf (t : CivilTime) : Int := ((t.todMs / 3600000 : Nat) : Int)

/-- Minute field of the wall clock (`getMinutes()`). -/
def minuteOf (t : CivilTime) : Int := ((t.todMs % 3600000 / 60000 : Nat) : Int)

/-- Second field of the wall clock (`getSeconds()`). -/
def secondOf (t : CivilTime) : Int := ((t.todMs % 60000 / 1000 : Nat) : Int)

/-- The computation part of `getLaunchAt` (`taskEntry.js` 812-832): the
hour is bumped by 24 exactly when the target time-of-day is strictly
below the current one in (hour, minute, second) lexicographic order,
then the target timestamp is rebuilt with `setHours/setMinutes/
setSeconds` (which keep the current millisecond, so the sub-second part
cancels in the difference) and `now` is subtracted. -/
def getLaunchAtTime (h m s : Int) (t : CivilTime) : Int :=
  let cH := hourOf t
  let cM := minuteOf t
  let cS := secondOf t
  let h' := if h < cH then h + 24
            else if h = cH then
              if m < cM then h + 24
              else if m = cM then (if s < cS then h + 24 else h)
              else h
            else h
  ((h' - cH) * 3600 + (m - cM) * 60 + (s - cS)) * 1000

/-- `getLaunchAt` (`taskEntry.js` 797-833): `none` models the `null`
returned for an invalid format; a missing/empty/non-string argument
yields `0`. -/
def getLaunchAt (d : Option String) (now : CivilTime) : Option Int :=
  match d with
  | none => some 0
  | some str =>
    if str = "" then some 0
    else
      match getLaunchAtParse str with
      | none => none
      | some (h, m, s) => some (getLaunchAtTime h m s now)

/-- Observable effects of `start()`: the `thorin.persist(PERSIST_KEY)`
read performed by `getStartupDelay` and the final `setTimeout` arming. -/
inductive StartEffect
  | readPersist (key : String)
  | arm (delayMs : Int)
deriving DecidableEq

/-- JS truthiness of an optional string option (`opt.at`, `opt.on`). -/
def strTruthy : Option String → Bool
  | some s => s ≠ ""
  | none => false

/-- `item.opt.timer >= 60` (`taskEntry.js` 597): JS `>=` coerces the raw
timer value to a number; a NaN or undefined comparison is false. -/
def timerGE60 (tv : Option JSVal) : Bool :=
  match tv with
  | none => false
  | some v =>
    match jsToNumber v with
    | some n => 60 ≤ n
    | none => false

/-- The delay computation and effects of `start(_delay, _firstStart)` for
a configured schedule (`taskEntry.js` 580-616).  With `at`/`on` set the
delay is recomputed from the wall clock as
`getLaunchAt(opt.at) + getLaunchOn(opt.on)` (a `null` from `getLaunchAt`
coerces to `0` under JS `+=`), ignoring `_delay`, `_firstStart` and the
store.  Otherwise the delay is `_delay` when it is a number, else
`opt.delay * 1000` when `opt.delay` is truthy, else `0`; only on first
start with `opt.timer >= 60` is the store read and the startup delay
added.  The final `parseInt(delay, 10)` is the identity on the integers
we model. -/
def startRun (opt : SchedOpt) (_delay : Option Int) (_firstStart : Bool)
    (loggerName taskName : String) (store : PersistStore) (now : CivilTime) :
    List StartEffect :=
  if strTruthy opt.atTime ∨ strTruthy opt.onAnchor then
    let launchAt := match getLaunchAt opt.atTime now with
      | some v => v
      | none => 0
    [.arm (launchAt + getLaunchOn opt.onAnchor now)]
  else
    let base := match _delay with
      | some d => d
      | none => match opt.delaySec with
        | some d => if d ≠ 0 then d * 1000 else 0
        | none => 0
    if _firstStart ∧ timerGE60 opt.timer then
      [.readPersist (persistKey loggerName),
       .arm (base + getStartupDelay store taskName (epochMs now))]
    else
      [.arm base]

/-! ### Settlement of one run (`createContext`, `taskEntry.js` 661-698)

A run settles through two callbacks racing on the event loop: the
timeout timer (when `opt.timeout` is set) and the `thorin.series`
completion callback.  Each callback runs atomically and at most once
(a `setTimeout` timer fires at most once, `series` settles at most
once); both are guarded by the shared `isDone` flag. -/

/-- Lifecycle event names (`EVENTS`, `taskEntry.js` 442-447). -/
inductive LifeEvent
  | failed
  | completed
  | timeout
  | stop
deriving DecidableEq

/-- A settlement callback arrival: the timeout timer firing, or the
action pipeline settling with (`err = true`) or without an error. -/
inductive SettleOcc
  | timeoutFire
  | settle (err : Bool)
deriving DecidableEq

/-- The shared settlement state of one run: the `isDone` flag and the
terminal events dispatched so far, in dispatch order. -/
structure SettleState where
  isDone : Bool
  dispatched : List LifeEvent
deriving DecidableEq

/-- One callback arrival (`taskEntry.js` 680-698): the timeout callback
returns immediately when `isDone` is set, else sets it and dispatches
`timeout`; the series callback returns immediately when `isDone` is set,
else sets it and dispatches `failed` or `completed` by the error. -/
def settleStep (st : SettleState) : SettleOcc → SettleState
  | .timeoutFire =>
    if st.isDone then st
    else { isDone := true, dispatched := st.dispatched ++ [.timeout] }
  | .settle err =>
    if st.isDone then st
    else { isDone := true,
           dispatched := st.dispatched ++ [if err then .failed else .completed] }

/-- The settlement state after a sequence of callback arrivals, starting
from `isDone = false` and nothing dispatched. -/
def settleRun (occs : List SettleOcc) : SettleState :=
  occs.foldl settleStep ⟨false, []⟩

/-- The terminal event the first arrival dispatches. -/
def terminalOf : SettleOcc → LifeEvent
  | .timeoutFire => .timeout
  | .settle err => if err then .failed else .completed

/-! ### `runAction` and the task state it reads -/

/-- The private per-instance state of a `TaskEntry`
(`taskEntry.js` 470-479), with the collaborator-supplied parts abstract:
`Cfg` is the configuration object, `V` an action's return value, `P` a
prepare hook, `S` the schedule item, `E` the event-handler map. -/
structure TaskEntryState (Cfg V P S E : Type) where
  name : String
  config : Cfg
  prepares : List P
  actions : String → Option (TaskContext Cfg → V)
  schedule : Option S
  events : E

/-- The JS return value of `runAction`: the literal `false` for a
missing action, or the invoked action's own return value. -/
inductive JSRet (V : Type)
  | boolFalse
  | val (v : V)

/-- `runAction(name)` (`taskEntry.js` 629-636): warn and return `false`
when no action is registered under `name`; otherwise build one fresh
`TaskContext` from the task's config and return that single action's
result.  No prepare hook, schedule, timeout timer or lifecycle event is
consulted. -/
def TaskEntryState.runAction (t : TaskEntryState Cfg V P S E) (name : String)
    (now : Int) : JSRet V :=
  match t.actions name with
  | none => .boolFalse
  | some f => .val (f (TaskContext.init t.config now))

/-- Multiplier of a duration unit letter (`s`/`m`/`h`/`d`), as in the
spec's table; `0` for any other character. -/
def unitMul : Char → Int
  | 's' => 1
  | 'm' => 60
  | 'h' => 3600
  | 'd' => 86400
  | _ => 0

end Tasks

namespace Tasks

/-! ### Helper lemmas -/

/-- Destroying a context keeps the symbol-keyed delay override, so the
`delay()` getter is unchanged. -/
theorem TaskContext.delayGet_destroy (ctx : TaskContext Cfg) :
    ctx.destroy.delayGet = ctx.delayGet := rfl

/-- Once `isDone` is set, every further callback arrival is a no-op. -/
theorem settleRun_done_fixed (l : List LifeEvent) (occs : List SettleOcc) :
    occs.foldl settleStep ⟨true, l⟩ = ⟨true, l⟩ := by
  induction occs with
  | nil => rfl
  | cons o os ih => cases o <;> simpa [settleStep] using ih

/-- C1.  For every run started by `createContext`, the first settlement
callback to arrive (timeout firing, or the pipeline settling with or
without an error) dispatches its terminal event — `timeout`, `failed` or
`completed` respectively — and the run's full dispatch list is exactly
that one event: no later arrival ever dispatches another terminal event
for the same run. -/
theorem createContext_exactly_one_terminal (first : SettleOcc) (rest : List SettleOcc) :
    (settleRun (first :: rest)).dispatched = [terminalOf first] := by
  have h1 : settleStep ⟨false, []⟩ first = ⟨true, [terminalOf first]⟩ := by
    cases first <;> rfl
  show (List.foldl settleStep (settleStep ⟨false, []⟩ first) rest).dispatched = _
  rw [h1, settleRun_done_fixed]

/-- C9.  `runAction` with an unregistered name returns the literal
`false`; with a registered name it builds one fresh context from the
task's config, runs exactly that action on it and returns the action's
own value; and its result depends only on the registered actions and the
config — not on the prepare hooks, the schedule or the event handlers. -/
theorem runAction_spec {Cfg V P S E : Type} (t : TaskEntryState Cfg V P S E)
    (name : String) (now : Int) :
    (t.actions name = none → t.runAction name now = .boolFalse) ∧
    (∀ f, t.actions name = some f →
      t.runAction name now = .val (f (TaskContext.init t.config now))) ∧
    (∀ t' : TaskEntryState Cfg V P S E, t'.actions = t.actions → t'.config = t.config →
      t'.runAction name now = t.runAction name now) := by
  refine ⟨fun h => ?_, fun f h => ?_, fun t' ha hc => ?_⟩
  · simp [TaskEntryState.runAction, h]
  · simp [TaskEntryState.runAction, h]
  · simp [TaskEntryState.runAction, ha, hc]

/-- Witness for C9 at a concrete task state: the action `a` returns `7`
through `runAction`, and the missing name `b` yields `false`. -/
theorem runAction_spec_witness :
    let t : TaskEntryState Unit Int Unit Unit Unit :=
      ⟨"job", (), [], fun n => if n = "a" then some (fun _ => 7) else none, none, ()⟩
    t.runAction "a" 0 = .val 7 ∧ t.runAction "b" 0 = .boolFalse := by
  intro t
  constructor
  · exact (runAction_spec t "a" 0).2.1 (fun _ => 7) rfl
  · exact (runAction_spec t "b" 0).1 rfl

/-- C10.  `destroy()` deletes every string-keyed own field of the context
(`start_at`, `end_at`, `stopped`, `config`, `error`) but keeps the
symbol-keyed next-delay override, so the `delay()` getter is unaffected;
consequently the termination path, which destroys the context before
reading `delay()`, still computes the re-arm interval from the override
value set during the run. -/
theorem destroy_preserves_delay_override (ctx : TaskContext Cfg) :
    (ctx.destroy.start_at = none ∧ ctx.destroy.end_at = none ∧
     ctx.destroy.stopped = none ∧ ctx.destroy.config = none ∧
     ctx.destroy.error = none) ∧
    ctx.destroy.delaySym = ctx.delaySym ∧
    ctx.destroy.delayGet = ctx.delayGet ∧
    (∀ (v : JSVal) (opt : SchedOpt) (tv : JSVal) (lg tn : String) (now : Int),
      jsTruthy v = true → opt.timer = some tv →
      (onContextTerminated opt (ctx.delaySet v) lg tn now).2 =
        (let timerMs := jsAdd (jsMul (jsToNumber tv) (some 1000))
                              (jsMul (getSeconds v) (some 1000))
         let timerMs := match timerMs with
           | some x => if x ≤ 0 then some 1 else some x
           | none => none
         [.persistW (persistKey lg) tn (jsAdd (some now) timerMs), .startW timerMs])) := by
  refine ⟨⟨rfl, rfl, rfl, rfl, rfl⟩, rfl, rfl, fun v opt tv lg tn now hv ht => ?_⟩
  have hget : (TaskContext.destroy (ctx.delaySet v)).delayGet = v := by
    simp [TaskContext.destroy, TaskContext.delaySet, TaskContext.delayGet, hv]
  simp only [onContextTerminated, ht, hget]

/-- Witness for C10: a run that set `delay(2)` on a 10-second timer still
re-arms from the override after `destroy`, at 12,000 ms. -/
theorem destroy_preserves_delay_override_witness :
    (onContextTerminated ⟨none, none, none, some (.num 10), none⟩
        ((TaskContext.init () 0).delaySet (.num 2)) "tasks" "job" 0).2 =
      [.persistW "tasks.startup" "job" (some 12000), .startW (some 12000)] := by
  have h := (destroy_preserves_delay_override (TaskContext.init () 0)).2.2.2
    (.num 2) ⟨none, none, none, some (.num 10), none⟩ (.num 10) "tasks" "job" 0
    (by decide) rfl
  simpa using h

/-- C2 counterexample.  With a 10-second timer and a run that set the
numeric delay override `-5`, the termination path re-arms at 10,000 ms
(the negative numeric override is clamped to `0` by `getSeconds` before
the sum), not at the claimed `(10 + (-5)) * 1000 = 5000` ms. -/
theorem onContextTerminated_negative_override_cex :
    (onContextTerminated ⟨none, none, none, some (.num 10), none⟩
        ((TaskContext.init () 0).delaySet (.num (-5))) "tasks" "job" 0).2 =
      [.persistW "tasks.startup" "job" (some 10000), .startW (some 10000)] ∧
    (10000 : Int) ≠ (10 + (-5)) * 1000 := by
  constructor
  · rfl
  · decide

/-- C2 (amended).  For a run of a task with a repeating numeric `timer`,
at termination the next re-arm delay is
`timer * 1000 + getSeconds(delay override) * 1000` — the override passes
through the duration parser, which clamps negative numbers to `0` —
clamped to a minimum of 1 ms, so the re-arm delay is strictly positive;
the resume value `now + delay` is persisted before `start` is invoked
with that delay. -/
theorem onContextTerminated_rearm_delay (timerSec : Int) (opt : SchedOpt)
    (ht : opt.timer = some (.num timerSec)) (ctx : TaskContext Cfg)
    (d : Int) (hd : getSeconds ctx.delayGet = some d)
    (lg tn : String) (now : Int) :
    (onContextTerminated opt ctx lg tn now).2 =
      [.persistW (persistKey lg) tn (some (now + max 1 (timerSec * 1000 + d * 1000))),
       .startW (some (max 1 (timerSec * 1000 + d * 1000)))] ∧
    1 ≤ max 1 (timerSec * 1000 + d * 1000) := by
  have hget : (TaskContext.destroy ctx).delayGet = ctx.delayGet := rfl
  refine ⟨?_, le_max_left _ _⟩
  simp only [onContextTerminated, ht, hget, hd, jsMul, jsAdd, jsToNumber]
  have h2 : (if timerSec * 1000 + d * 1000 ≤ 0 then some 1
          else some (timerSec * 1000 + d * 1000)) =
         some (max 1 (timerSec * 1000 + d * 1000)) := by
    split_ifs with h
    · simp [max_eq_left (by omega : timerSec * 1000 + d * 1000 ≤ 1)]
    · simp [max_eq_right (by omega : (1 : Int) ≤ timerSec * 1000 + d * 1000)]
  rw [h2]

/-- Witness for C2 (amended): 10-second timer, override `delay(2)` — the
run persists and re-arms at 12,000 ms. -/
theorem onContextTerminated_rearm_delay_witness :
    (onContextTerminated ⟨none, none, none, some (.num 10), none⟩
        ((TaskContext.init () 0).delaySet (.num 2)) "tasks" "job" 0).2 =
      [.persistW "tasks.startup" "job" (some (0 + max 1 (10 * 1000 + 2 * 1000))),
       .startW (some (max 1 (10 * 1000 + 2 * 1000)))] ∧
    (1 : Int) ≤ max 1 (10 * 1000 + 2 * 1000) :=
  onContextTerminated_rearm_delay 10 ⟨none, none, none, some (.num 10), none⟩ rfl
    ((TaskContext.init () 0).delaySet (.num 2)) 2 (by decide) "tasks" "job" 0

/-- C7 counterexample.  A task scheduled with the clock-time policy
`at: "10:30"` and no `timer`: after a run terminates, the termination
path produces no effect at all — in particular no `start` re-arm — so
the task does not re-arm, contradicting the claimed unconditional
re-arming of clock-time schedules. -/
theorem onContextTerminated_at_no_timer_cex :
    (onContextTerminated ⟨some "10:30", none, none, none, none⟩
        (TaskContext.init () 0) "tasks" "job" 0).2 = [] := rfl

/-- C7 (amended).  After a run terminates, the task re-arms if and only
if the schedule options define `timer` (this holds for clock-time and
calendar policies too); when a clock-time/calendar task does re-arm, the
`start` call ignores the delay argument, the first-start flag and the
persisted store, and recomputes the delay from the current wall clock as
`getLaunchAt(at) + getLaunchOn(on)`. -/
theorem rearm_iff_timer {Cfg : Type} (ctx : TaskContext Cfg) (lg tn : String) (now : Int)
    (nowW : CivilTime) :
    (∀ opt : SchedOpt, opt.timer = none →
      (onContextTerminated opt ctx lg tn now).2 = []) ∧
    (∀ (opt : SchedOpt) (tv : JSVal), opt.timer = some tv →
      ∃ d, (onContextTerminated opt ctx lg tn now).2 =
        [.persistW (persistKey lg) tn (jsAdd (some now) d), .startW d]) ∧
    (∀ (opt : SchedOpt) (dl : Option Int) (fs : Bool) (store : PersistStore),
      (strTruthy opt.atTime ∨ strTruthy opt.onAnchor) →
      startRun opt dl fs lg tn store nowW =
        [.arm ((getLaunchAt opt.atTime nowW).getD 0 + getLaunchOn opt.onAnchor nowW)]) := by
  refine ⟨fun opt h => ?_, fun opt tv h => ?_, fun opt dl fs store h => ?_⟩
  · simp [onContextTerminated, h]
  · exact ⟨_, by simp only [onContextTerminated, h]; rfl⟩
  · have h' : (strTruthy opt.atTime ∨ strTruthy opt.onAnchor) = True := by
      simp [h]
    simp only [startRun, h', if_true]
    cases hat : getLaunchAt opt.atTime nowW <;> simp [hat]

/-- Witness for C7 (amended): with `at: "10:30"` and `timer: 60`, a run
terminating at epoch 0 re-arms, and a subsequent `start` recomputes the
delay from the wall clock (midnight 1970-01-01 → 37,800,000 ms to 10:30)
whatever delay argument it was passed. -/
theorem rearm_iff_timer_witness :
    ((onContextTerminated ⟨some "10:30", none, none, none, none⟩
        (TaskContext.init () 0) "tasks" "job" 0).2 = [] ∧
     (∃ d, (onContextTerminated ⟨some "10:30", none, none, some (.num 60), none⟩
        (TaskContext.init () 0) "tasks" "job" 0).2 =
          [.persistW "tasks.startup" "job" (jsAdd (some 0) d), .startW d]) ∧
     startRun ⟨some "10:30", none, none, some (.num 60), none⟩ (some 999999) false
        "tasks" "job" none ⟨1970, 1, 1, 0⟩ = [.arm 37800000]) := by
  have h1 := (rearm_iff_timer (TaskContext.init () 0) "tasks" "job" 0 ⟨1970, 1, 1, 0⟩).1
    ⟨some "10:30", none, none, none, none⟩ rfl
  have h2 := (rearm_iff_timer (TaskContext.init () 0) "tasks" "job" 0 ⟨1970, 1, 1, 0⟩).2.1
    ⟨some "10:30", none, none, some (.num 60), none⟩ (.num 60) rfl
  have h3 := (rearm_iff_timer (TaskContext.init () 0) "tasks" "job" 0 ⟨1970, 1, 1, 0⟩).2.2
    ⟨some "10:30", none, none, some (.num 60), none⟩ (some 999999) false none
    (Or.inl (by decide))
  refine ⟨h1, h2, ?_⟩
  rw [h3]
  decide

/-- C8.  For a run of a task whose schedule defines `timer`, the
termination path performs exactly one persistence write, under the fixed
key `logger ++ ".startup"`, before the single re-arm; a task without
`timer` performs no write; `setStartupDelay` sets only the writing
task's own entry (to `now + delayMs`) and preserves every other task's
entry; and `start` never reads the store outside a first start. -/
theorem persist_frame {Cfg : Type} (ctx : TaskContext Cfg) (lg tn : String) (now : Int)
    (nowW : CivilTime) :
    (∀ (opt : SchedOpt) (tv : JSVal), opt.timer = some tv →
      ∃ d, (onContextTerminated opt ctx lg tn now).2 =
        [.persistW (lg ++ ".startup") tn (jsAdd (some now) d), .startW d]) ∧
    (∀ opt : SchedOpt, opt.timer = none →
      (onContextTerminated opt ctx lg tn now).2 = []) ∧
    (∀ (store : PersistStore) (v : Option Int),
      setStartupDelay store tn now v tn = jsAdd (some now) v ∧
      (∀ (f : String → Option Int) (k : String), store = some f → k ≠ tn →
        setStartupDelay store tn now v k = f k)) ∧
    (∀ (opt : SchedOpt) (dl : Option Int) (store : PersistStore) (k : String),
      StartEffect.readPersist k ∈ startRun opt dl false lg tn store nowW → False) := by
  refine ⟨fun opt tv h => ?_, fun opt h => ?_, fun store v => ⟨?_, fun f k hs hk => ?_⟩,
    fun opt dl store k hmem => ?_⟩
  · exact ⟨_, by simp only [onContextTerminated, h, persistKey]; rfl⟩
  · simp [onContextTerminated, h]
  · simp [setStartupDelay]
  · simp [setStartupDelay, hs, hk]
  · by_cases hat : strTruthy opt.atTime ∨ strTruthy opt.onAnchor
    · have h' : (strTruthy opt.atTime ∨ strTruthy opt.onAnchor) = True := by simp [hat]
      simp [startRun, h'] at hmem
    · have h' : (strTruthy opt.atTime ∨ strTruthy opt.onAnchor) = False := by
        simpa using hat
      simp only [startRun, h', if_false] at hmem
      rcases dl with _ | d <;> simp at hmem

/-- Witness for C8 at a concrete run: a 60-second-timer task writes
exactly one entry under `tasks.startup` and re-arms; a timerless task
writes nothing; the mapping update touches only the task's own key. -/
theorem persist_frame_witness :
    (∃ d, (onContextTerminated ⟨none, none, none, some (.num 60), none⟩
        (TaskContext.init () 0) "tasks" "job" 0).2 =
      [.persistW ("tasks" ++ ".startup") "job" (jsAdd (some 0) d), .startW d]) ∧
    (onContextTerminated ⟨none, none, none, none, none⟩
        (TaskContext.init () 0) "tasks" "job" 0).2 = [] ∧
    setStartupDelay (some fun k => if k = "other" then some 5 else none) "job" 0
        (some 60000) "job" = some 60000 ∧
    setStartupDelay (some fun k => if k = "other" then some 5 else none) "job" 0
        (some 60000) "other" = some 5 := by
  have h := persist_frame (TaskContext.init () 0) "tasks" "job" 0 ⟨1970, 1, 1, 0⟩
  refine ⟨h.1 ⟨none, none, none, some (.num 60), none⟩ (.num 60) rfl,
          h.2.1 ⟨none, none, none, none, none⟩ rfl, ?_, ?_⟩
  · have hx := (h.2.2.1 (some fun k => if k = "other" then some 5 else none) (some 60000)).1
    simpa [jsAdd] using hx
  · have hx := (h.2.2.1 (some fun k => if k = "other" then some 5 else none) (some 60000)).2
      (fun k => if k = "other" then some 5 else none) "other" rfl (by decide)
    simpa using hx

/-- C3 counterexample.  First start of a task with `delay: 5`,
`timer: 60` and a persisted resume time already in the past: the armed
delay is the configured 5,000 ms, not the claimed delay `0`. -/
theorem startRun_stale_persist_cex :
    startRun ⟨none, none, some 5, some (.num 60), none⟩ none true "tasks" "job"
        (some fun k => if k = "job" then some (-1000) else none) ⟨1970, 1, 1, 0⟩ =
      [.readPersist "tasks.startup", .arm 5000] ∧ (5000 : Int) ≠ 0 := by
  constructor
  · rfl
  · decide

/-- C3 (amended).  On a delay/interval policy, `start` uses the override
delay when it is a number, else the configured fixed delay in ms, and
adds the persisted resume offset (persisted timestamp minus now, floored
at 0) if and only if it is a first start and the raw `timer` option
compares `>= 60`: below that threshold, or on a non-first start, the
store is not read and the armed delay is just the override-or-base
delay.  Consequently, on first start with a nonnegative base delay the
task does not fire before a still-future persisted resume time, and when
the persisted time has already passed it fires after exactly the
configured base delay (0 when no fixed delay is configured). -/
theorem startRun_firstStart_resume (delaySec : Option Int) (tv : JSVal)
    (toSec : Option Int) (lg tn : String) (f : String → Option Int) (ts : Int)
    (now : CivilTime) (hts : f tn = some ts) :
    let base : Int := match delaySec with
      | some d => if d ≠ 0 then d * 1000 else 0
      | none => 0
    let opt : SchedOpt := ⟨none, none, delaySec, some tv, toSec⟩
    (∀ (o : Int) (fs : Bool), timerGE60 (some tv) = true →
      startRun opt (some o) fs lg tn (some f) now =
        if fs then [.readPersist (persistKey lg), .arm (o + max 0 (ts - epochMs now))]
        else [.arm o]) ∧
    (timerGE60 (some tv) = true →
      startRun opt none true lg tn (some f) now =
        [.readPersist (persistKey lg), .arm (base + max 0 (ts - epochMs now))]) ∧
    (∀ (ov : Option Int) (fs : Bool), timerGE60 (some tv) = false ∨ fs = false →
      startRun opt ov fs lg tn (some f) now = [.arm (ov.getD base)]) ∧
    (0 ≤ base → epochMs now ≤ ts →
      ts ≤ epochMs now + (base + max 0 (ts - epochMs now))) ∧
    (ts ≤ epochMs now → base + max 0 (ts - epochMs now) = base) := by
  intro base opt
  have hg : getStartupDelay (some f) tn (epochMs now) = max 0 (ts - epochMs now) := by
    simp only [getStartupDelay, hts]
    rcases le_total 0 (ts - epochMs now) with h | h
    · rw [if_neg (by omega), max_eq_right h]
    · rcases lt_or_eq_of_le h with h' | h'
      · rw [if_pos h', max_eq_left h]
      · rw [← h', if_neg (by omega)]
        simp
  refine ⟨fun o fs htimer => ?_, fun htimer => ?_, fun ov fs hcase => ?_,
    fun hb hf => ?_, fun hp => ?_⟩
  · cases fs
    · simp [startRun, strTruthy, opt]
    · simp [startRun, strTruthy, opt, htimer, hg]
  · simp [startRun, strTruthy, opt, htimer, hg, base]
  · rcases ov with _ | o <;> cases fs <;> rcases hcase with hc | hc <;>
      simp_all [startRun, strTruthy, opt, base]
  · rcases le_total 0 (ts - epochMs now) with h | h
    · rw [max_eq_right h]; omega
    · rw [max_eq_left h]; omega
  · rw [max_eq_left (by omega)]; omega

/-- Witness for C3 (amended) at concrete first starts: with no
configured delay and `timer: 60`, a persisted resume time 600,000 ms in
the future yields exactly that offset; with `timer: 30` (below the
60-second threshold) the same first start reads nothing and arms with
the bare base delay. -/
theorem startRun_firstStart_resume_witness :
    (startRun ⟨none, none, none, some (.num 60), none⟩ none true "tasks" "job"
        (some fun k => if k = "job" then some 600000 else none) ⟨1970, 1, 1, 0⟩ =
      [.readPersist (persistKey "tasks"),
       .arm (0 + max 0 (600000 - epochMs ⟨1970, 1, 1, 0⟩))]) ∧
    (startRun ⟨none, none, none, some (.num 30), none⟩ none true "tasks" "job"
        (some fun k => if k = "job" then some 600000 else none) ⟨1970, 1, 1, 0⟩ =
      [.arm ((none : Option Int).getD 0)]) := by
  constructor
  · exact (startRun_firstStart_resume none (.num 60) none "tasks" "job"
      (fun k => if k = "job" then some 600000 else none) 600000 ⟨1970, 1, 1, 0⟩ rfl).2.1
      (by decide)
  · exact (startRun_firstStart_resume none (.num 30) none "tasks" "job"
      (fun k => if k = "job" then some 600000 else none) 600000 ⟨1970, 1, 1, 0⟩ rfl).2.2.1
      none true (Or.inl (by decide))

/-- A decimal digit is none of the unit letters nor a sign. -/
theorem isDigit_not_unit (c : Char) (hc : c.isDigit = true) :
    c ≠ 's' ∧ c ≠ 'm' ∧ c ≠ 'h' ∧ c ≠ 'd' ∧ c ≠ '-' ∧ c ≠ '+' := by
  refine ⟨?_, ?_, ?_, ?_, ?_, ?_⟩ <;> rintro rfl <;> exact absurd hc (by decide)

/-- JS `indexOf(c) === -1` for a character not in the token. -/
theorem contains_false_of_not_mem {l : List Char} {c : Char} (h : c ∉ l) :
    l.contains c = false := by
  simpa using h

/-- JS `indexOf(c) !== -1` for a character in the token. -/
theorem contains_true_of_mem {l : List Char} {c : Char} (h : c ∈ l) :
    l.contains c = true := by
  simpa using h

/-- An all-digit token is its own leading digit run. -/
theorem leadDigits_all (l : List Char) (h : ∀ c ∈ l, c.isDigit = true) :
    leadDigits l = l := by
  simp [leadDigits, List.takeWhile_eq_self_iff]
  exact h

/-- Removing the first occurrence of the trailing unit letter of a token
whose other characters differ from it leaves exactly the digits. -/
theorem removeFirst_append_self (ds : List Char) (u : Char) (h : u ∉ ds) :
    removeFirst u (ds ++ [u]) = ds := by
  induction ds with
  | nil => simp [removeFirst]
  | cons x xs ih =>
    have hx : x ≠ u := by rintro rfl; exact h (by simp)
    simp only [List.cons_append, removeFirst, if_neg hx]
    rw [show xs.append [u] = xs ++ [u] from rfl, ih (fun hm => h (by simp [hm]))]

/-- Unit letters are not digits. -/
theorem unit_not_digit {u : Char} (hu : u ∈ (['s','m','h','d'] : List Char)) :
    u.isDigit = false := by
  fin_cases hu <;> decide

/-- On a well-formed token (digits followed by one unit letter) the four
`indexOf` checks of `getSeconds` yield exactly that unit and its
multiplier, whatever unit leaked over from the previous iteration. -/
theorem tokUnit_wf (ds : List Char) (u : Char) (prev : Option Char)
    (hds : ∀ c ∈ ds, c.isDigit = true) (hu : u ∈ (['s','m','h','d'] : List Char)) :
    tokUnit (ds ++ [u]) prev = (some u, unitMul u) := by
  have hnm : ∀ x : Char, x ∈ (['s','m','h','d'] : List Char) → x ∉ ds := by
    intro x hx hmem
    fin_cases hx <;> exact absurd (hds _ hmem) (by decide)
  have hcont : ∀ x : Char, x ∈ (['s','m','h','d'] : List Char) → x ≠ u →
      (ds ++ [u]).contains x = false := by
    intro x hx hxu
    apply contains_false_of_not_mem
    simp only [List.mem_append, List.mem_singleton]
    rintro (hmem | rfl)
    · exact hnm x hx hmem
    · exact hxu rfl
  have hcu : (ds ++ [u]).contains u = true := contains_true_of_mem (by simp)
  fin_cases hu
  · rw [show tokUnit (ds ++ ['s']) prev =
        (let r := (prev, (1 : Int))
         let r := if (ds ++ ['s']).contains 's' then (some 's', r.2) else r
         let r := if (ds ++ ['s']).contains 'm' then (some 'm', (60 : Int)) else r
         let r := if (ds ++ ['s']).contains 'h' then (some 'h', (3600 : Int)) else r
         let r := if (ds ++ ['s']).contains 'd' then (some 'd', (86400 : Int)) else r
         r) from rfl]
    rw [hcu, hcont 'm' (by simp) (by decide), hcont 'h' (by simp) (by decide),
       hcont 'd' (by simp) (by decide)]
    simp [unitMul]
  · rw [show tokUnit (ds ++ ['m']) prev =
        (let r := (prev, (1 : Int))
         let r := if (ds ++ ['m']).contains 's' then (some 's', r.2) else r
         let r := if (ds ++ ['m']).contains 'm' then (some 'm', (60 : Int)) else r
         let r := if (ds ++ ['m']).contains 'h' then (some 'h', (3600 : Int)) else r
         let r := if (ds ++ ['m']).contains 'd' then (some 'd', (86400 : Int)) else r
         r) from rfl]
    rw [hcu, hcont 's' (by simp) (by decide), hcont 'h' (by simp) (by decide),
       hcont 'd' (by simp) (by decide)]
    simp [unitMul]
  · rw [show tokUnit (ds ++ ['h']) prev =
        (let r := (prev, (1 : Int))
         let r := if (ds ++ ['h']).contains 's' then (some 's', r.2) else r
         let r := if (ds ++ ['h']).contains 'm' then (some 'm', (60 : Int)) else r
         let r := if (ds ++ ['h']).contains 'h' then (some 'h', (3600 : Int)) else r
         let r := if (ds ++ ['h']).contains 'd' then (some 'd', (86400 : Int)) else r
         r) from rfl]
    rw [hcu, hcont 's' (by simp) (by decide), hcont 'm' (by simp) (by decide),
       hcont 'd' (by simp) (by decide)]
    simp [unitMul]
  · rw [show tokUnit (ds ++ ['d']) prev =
        (let r := (prev, (1 : Int))
         let r := if (ds ++ ['d']).contains 's' then (some 's', r.2) else r
         let r := if (ds ++ ['d']).contains 'm' then (some 'm', (60 : Int)) else r
         let r := if (ds ++ ['d']).contains 'h' then (some 'h', (3600 : Int)) else r
         let r := if (ds ++ ['d']).contains 'd' then (some 'd', (86400 : Int)) else r
         r) from rfl]
    rw [hcu, hcont 's' (by simp) (by decide), hcont 'm' (by simp) (by decide),
       hcont 'h' (by simp) (by decide)]
    simp [unitMul]

/-- `parseInt` on a non-empty all-digit token returns its value. -/
theorem jsParseInt_digits (ds : List Char) (h0 : ds ≠ [])
    (hds : ∀ c ∈ ds, c.isDigit = true) :
    jsParseInt ds = some ((digitsVal ds : Nat) : Int) := by
  cases ds with
  | nil => exact absurd rfl h0
  | cons c rest =>
    have hc := hds c (by simp)
    obtain ⟨_, _, _, _, hminus, hplus⟩ := isDigit_not_unit c hc
    have hld : leadDigits (c :: rest) = c :: rest := leadDigits_all _ hds
    simp only [jsParseInt, if_neg hminus, if_neg hplus, hld]
    rw [if_neg (by simp)]

/-- The token loop of `getSeconds` on a list of well-formed tokens adds
the sum of magnitude × multiplier to the accumulator, for any leaked
previous unit. -/
theorem getSecondsTokens_wf_aux (toks : List (List Char × Char)) (prev : Option Char)
    (acc : Int)
    (hwf : ∀ p ∈ toks, p.1 ≠ [] ∧ (∀ c ∈ p.1, c.isDigit = true) ∧
      p.2 ∈ (['s','m','h','d'] : List Char)) :
    getSecondsTokens (toks.map fun p => p.1 ++ [p.2]) prev (some acc)
      = some (acc + (toks.map fun p => ((digitsVal p.1 : Nat) : Int) * unitMul p.2).sum) := by
  induction toks generalizing prev acc with
  | nil => simp [getSecondsTokens]
  | cons p rest ih =>
    obtain ⟨hne, hds, hu⟩ := hwf p (by simp)
    have htu := tokUnit_wf p.1 p.2 prev hds hu
    have hnotmem : p.2 ∉ p.1 := fun hmem => by
      have h1 := hds p.2 hmem
      have h2 := unit_not_digit hu
      rw [h1] at h2
      exact absurd h2 (by simp)
    have hrm : removeFirst p.2 (p.1 ++ [p.2]) = p.1 := removeFirst_append_self p.1 p.2 hnotmem
    have hpi := jsParseInt_digits p.1 hne hds
    simp only [List.map_cons, getSecondsTokens, htu, hrm, hpi, jsMul, jsAdd]
    rw [ih (some p.2) _ (fun q hq => hwf q (by simp [hq]))]
    rw [List.sum_cons, add_assoc]

/-- C5 counterexample.  `getSeconds("x 1h")` returns `0`: the leading
token `"x"` has no unit letter, so the loop aborts the whole call with
`0` instead of contributing `0` and still counting the `"1h"` token,
which the claim says should make the total `3600`. -/
theorem getSeconds_malformed_token_cex :
    getSeconds (.str "x 1h") = some 0 ∧ (some (0 : Int) ≠ some (3600 : Int)) := by
  constructor
  · rfl
  · decide

/-- C5 (amended).  `getSeconds` clamps a number to at least `0`; on a
string splitting into well-formed whitespace-separated tokens (an
integer magnitude followed by one unit letter `s`/`m`/`h`/`d`) it
returns the sum over tokens of magnitude times unit multiplier (s = 1,
m = 60, h = 3600, d = 86400); but a token with no unit letter does not
simply contribute 0: when it appears before any unit-bearing token the
whole call returns 0 immediately (so in particular a string whose first
token has no recognized unit yields 0). -/
theorem getSeconds_characterization :
    (∀ n : Int, getSeconds (.num n) = some (max 0 n)) ∧
    (∀ (s : String) (toks : List (List Char × Char)),
      splitTok s.data = toks.map (fun p => p.1 ++ [p.2]) →
      (∀ p ∈ toks, p.1 ≠ [] ∧ (∀ c ∈ p.1, c.isDigit = true) ∧
        p.2 ∈ (['s','m','h','d'] : List Char)) →
      getSeconds (.str s)
        = some ((toks.map fun p => ((digitsVal p.1 : Nat) : Int) * unitMul p.2).sum)) ∧
    (∀ (s : String) (tok : List Char) (rest : List (List Char)),
      splitTok s.data = tok :: rest →
      tok.contains 's' = false → tok.contains 'm' = false →
      tok.contains 'h' = false → tok.contains 'd' = false →
      getSeconds (.str s) = some 0) := by
  refine ⟨fun n => rfl, fun s toks hsplit hwf => ?_, fun s tok rest hsplit h1 h2 h3 h4 => ?_⟩
  · show getSecondsTokens (splitTok s.data) none (some 0) = _
    rw [hsplit, getSecondsTokens_wf_aux toks none 0 hwf, zero_add]
  · show getSecondsTokens (splitTok s.data) none (some 0) = _
    rw [hsplit]
    have htu : tokUnit tok none = (none, 1) := by
      have m1 : 's' ∉ tok := by simpa using h1
      have m2 : 'm' ∉ tok := by simpa using h2
      have m3 : 'h' ∉ tok := by simpa using h3
      have m4 : 'd' ∉ tok := by simpa using h4
      simp [tokUnit, m1, m2, m3, m4]
    simp only [getSecondsTokens, htu]

/-- Witness for C5 (amended): `"1h 30m"` parses to 5400 seconds. -/
theorem getSeconds_characterization_witness :
    getSeconds (.str "1h 30m") = some 5400 := by
  have h := getSeconds_characterization.2.1 "1h 30m"
    [(['1'], 'h'), (['3', '0'], 'm')] (by decide) (by decide)
  exact h.trans (by decide)

/-- C4 counterexample.  When the target time of day exactly equals the
current one (`"12:30:45"` at 12:30:45), `getLaunchAt` does not roll to
tomorrow: the lexicographic comparison only rolls on strict inequality,
so the delay is `0`, not the claimed ≈ 86,400,000 ms ("never 0"). -/
theorem getLaunchAt_equal_now_cex :
    getLaunchAtParse "12:30:45" = some (12, 30, 45) ∧
    getLaunchAt (some "12:30:45") ⟨2021, 4, 30, (12 * 3600 + 30 * 60 + 45) * 1000⟩ = some 0 ∧
    ((0 : Int) ≠ 86400000) := by
  refine ⟨by decide, by decide, by decide⟩

/-- Bounds of the wall-clock fields for a valid time of day. -/
theorem hourOf_bounds (t : CivilTime) (h : t.todMs < 86400000) :
    0 ≤ hourOf t ∧ hourOf t ≤ 23 ∧ 0 ≤ minuteOf t ∧ minuteOf t ≤ 59 ∧
    0 ≤ secondOf t ∧ secondOf t ≤ 59 := by
  unfold hourOf minuteOf secondOf
  omega

/-- Closed form of the clock-time delay computation: the difference of
the two times of day, plus one day exactly when the target is strictly
below the current time in (hour, minute, second) lexicographic order. -/
theorem getLaunchAtTime_formula (h m s : Int) (t : CivilTime)
    (htod : t.todMs < 86400000) :
    getLaunchAtTime h m s t =
      (h * 3600 + m * 60 + s) * 1000
        - (hourOf t * 3600 + minuteOf t * 60 + secondOf t) * 1000
        + (if h < hourOf t ∨ (h = hourOf t ∧ (m < minuteOf t ∨ (m = minuteOf t ∧ s < secondOf t)))
           then 86400000 else 0) := by
  obtain ⟨h1, h2, h3, h4, h5, h6⟩ := hourOf_bounds t htod
  dsimp only [getLaunchAtTime]
  split_ifs <;> omega

/-- C4 (amended).  For every valid clock-time string and every wall
clock, `getLaunchAt` returns the signed time-of-day difference to the
target plus one full day exactly when the target time-of-day is
strictly below the current one (compared hour first, then minute, then
second); the result is always nonnegative, and when the target exactly
equals the current time it is `0` (today, fire now) rather than rolling
to tomorrow. -/
theorem getLaunchAt_rolls_only_when_passed (str : String) (h m s : Int) (t : CivilTime)
    (hp : getLaunchAtParse str = some (h, m, s))
    (hh0 : 0 ≤ h) (hh1 : h ≤ 24) (hm0 : 0 ≤ m) (hm1 : m ≤ 59)
    (hs0 : 0 ≤ s) (hs1 : s ≤ 59) (htod : t.todMs < 86400000) :
    getLaunchAt (some str) t = some (getLaunchAtTime h m s t) ∧
    getLaunchAtTime h m s t =
      (h * 3600 + m * 60 + s) * 1000
        - (hourOf t * 3600 + minuteOf t * 60 + secondOf t) * 1000
        + (if h < hourOf t ∨ (h = hourOf t ∧ (m < minuteOf t ∨ (m = minuteOf t ∧ s < secondOf t)))
           then 86400000 else 0) ∧
    0 ≤ getLaunchAtTime h m s t ∧
    (h = hourOf t → m = minuteOf t → s = secondOf t → getLaunchAtTime h m s t = 0) := by
  obtain ⟨b1, b2, b3, b4, b5, b6⟩ := hourOf_bounds t htod
  have hformula := getLaunchAtTime_formula h m s t htod
  have hstr : str ≠ "" := by
    rintro rfl
    rw [show getLaunchAtParse "" = none from rfl] at hp
    cases hp
  refine ⟨?_, hformula, ?_, fun e1 e2 e3 => ?_⟩
  · simp only [getLaunchAt, if_neg hstr, hp]
  · rw [hformula]; split_ifs <;> omega
  · rw [hformula, if_neg (by omega)]; omega

/-- Witness for C4 (amended): target `"00:00"` one second after
midnight rolls to tomorrow, 86,399,000 ms away. -/
theorem getLaunchAt_rolls_witness :
    getLaunchAt (some "00:00") ⟨2021, 1, 1, 1000⟩ = some 86399000 :=
  (getLaunchAt_rolls_only_when_passed "00:00" 0 0 0 ⟨2021, 1, 1, 1000⟩ (by decide)
    (by decide) (by decide) (by decide) (by decide) (by decide) (by decide)
    (by decide)).1.trans (by decide)

/-- Every month has between 28 and 31 days. -/
theorem daysInMonth_bounds (y m : Nat) : 28 ≤ daysInMonth y m ∧ daysInMonth y m ≤ 31 := by
  unfold daysInMonth
  split_ifs <;> omega

/-- At a whole-day instant, `unix() * 1000` loses nothing. -/
theorem unixMs_tod0 (t : CivilTime) (h : t.todMs = 0) : unixMs t = epochMs t := by
  have he : epochMs t = (epochDays t : Int) * 86400 * 1000 := by
    unfold epochMs
    rw [h]
    push_cast
    ring
  unfold unixMs
  rw [he, Int.mul_ediv_cancel _ (by norm_num)]

/-- Recurrence of the month-prefix day count. -/
theorem daysBeforeMonth_succ (y m : Nat) (hm : 1 ≤ m) :
    daysBeforeMonth y (m + 1) = daysBeforeMonth y m + daysInMonth y m := by
  match m, hm with
  | Nat.succ k, _ => rfl

/-- The twelve months sum to the year length. -/
theorem daysBeforeMonth_year (y : Nat) :
    daysBeforeMonth y 12 + daysInMonth y 12 = daysInYear y := by
  have h12 : daysBeforeMonth y 12
      = 0 + 31 + (if isLeap y then 29 else 28) + 31 + 30 + 31 + 30 + 31 + 31 + 30 + 31 + 30 := rfl
  have hd12 : daysInMonth y 12 = 31 := rfl
  rw [h12, hd12]
  unfold daysInYear
  cases isLeap y <;> norm_num

/-- Recurrence of the year-prefix day count. -/
theorem daysFrom1970_succ (y : Nat) (hy : 1970 ≤ y) :
    daysFrom1970 (y + 1 - 1970) = daysFrom1970 (y - 1970) + daysInYear y := by
  have h : y + 1 - 1970 = (y - 1970) + 1 := by omega
  rw [h]
  show daysFrom1970 (y - 1970) + daysInYear (1970 + (y - 1970)) = _
  rw [show 1970 + (y - 1970) = y from by omega]

/-- Day `D` of `t`'s next month lies `D` days after the last day of
`t`'s month. -/
theorem epochDays_next_month (t : CivilTime) (hy : 1970 ≤ t.year) (hm1 : 1 ≤ t.month)
    (hm2 : t.month ≤ 12) (D : Nat) (hD : 1 ≤ D) :
    epochDays ⟨(if t.month = 12 then t.year + 1 else t.year),
               (if t.month = 12 then 1 else t.month + 1), D, 0⟩
      = epochDays ⟨t.year, t.month, daysInMonth t.year t.month, 0⟩ + D := by
  by_cases h12 : t.month = 12
  · simp only [h12, if_pos]
    unfold epochDays
    dsimp only
    rw [daysFrom1970_succ t.year hy]
    have hbm1 : daysBeforeMonth (t.year + 1) 1 = 0 := rfl
    have hyr := daysBeforeMonth_year t.year
    have hdim : daysInMonth t.year 12 = 31 := rfl
    omega
  · simp only [if_neg h12]
    unfold epochDays
    dsimp only
    rw [daysBeforeMonth_succ t.year t.month hm1]
    have hpos := daysInMonth_bounds t.year t.month
    omega

/-- C6 counterexample.  From 2021-04-30 12:00, `nextCalendarAnchor`
(`getLaunchOn`) for `month-end` targets 2021-05-30 00:00 — `add(1,
'month')` clamps April's last day 30 instead of recomputing May's last
day 31 — so the target is not the last calendar day of the current or
next month; and `month-start` evaluated exactly at a month start yields
offset `0`, which is not positive. -/
theorem getLaunchOn_monthEnd_cex :
    getLaunchOn (some "month-end") ⟨2021, 4, 30, 12 * 3600 * 1000⟩ = 2548800000 ∧
    epochMs ⟨2021, 5, 30, 0⟩ - epochMs ⟨2021, 4, 30, 12 * 3600 * 1000⟩ = 2548800000 ∧
    daysInMonth 2021 5 = 31 ∧
    epochMs ⟨2021, 5, 31, 0⟩ - epochMs ⟨2021, 4, 30, 12 * 3600 * 1000⟩ = 2635200000 ∧
    ((2548800000 : Int) ≠ 2635200000) ∧
    getLaunchOn (some "month-start") ⟨2021, 4, 1, 0⟩ = 0 := by
  refine ⟨by decide, by decide, by decide, by decide, by decide, by decide⟩

/-- C6 (amended).  `nextCalendarAnchor` advances to the next period only
when the current period's anchor instant is strictly in the past; an
anchor instant equal to now yields offset `0` (shown here for month-end,
and for `month-start`/`week-start` at their anchor instants).  For
`month-end`: when the current month's last day at 00:00 is not in the
past the offset targets exactly it, and the result is nonnegative with
equality exactly at the anchor; when it is in the past, the target is
one `add(1, 'month')` later with the day-of-month clamped, i.e. day
`min(len(current month), len(next month))` — which can precede the next
month's true last day. -/
theorem getLaunchOn_month_anchors (t : CivilTime) (hv : ValidTime t) :
    (t.day < daysInMonth t.year t.month ∨ t.todMs = 0 →
      getLaunchOn (some "month-end") t =
        ((daysInMonth t.year t.month : Int) - t.day) * 86400000 - t.todMs) ∧
    (t.day = daysInMonth t.year t.month → 0 < t.todMs →
      getLaunchOn (some "month-end") t =
        ((min (daysInMonth t.year t.month)
            (daysInMonth (if t.month = 12 then t.year + 1 else t.year)
              (if t.month = 12 then 1 else t.month + 1)) : Nat) : Int) * 86400000
          - t.todMs) ∧
    0 ≤ getLaunchOn (some "month-end") t ∧
    (getLaunchOn (some "month-end") t = 0 ↔
      t.day = daysInMonth t.year t.month ∧ t.todMs = 0) ∧
    getLaunchOn (some "month-start") ⟨t.year, t.month, 1, 0⟩ = 0 ∧
    (dayOfWeek t = 0 → t.todMs = 0 → getLaunchOn (some "week-start") t = 0) := by
  obtain ⟨hy, hm1, hm2, hd1, hd2, htod⟩ := hv
  have hLbounds := daysInMonth_bounds t.year t.month
  have hL2bounds := daysInMonth_bounds (if t.month = 12 then t.year + 1 else t.year)
    (if t.month = 12 then 1 else t.month + 1)
  have key : ∀ u : CivilTime, u.todMs = 0 →
      unixMs u - epochMs t = ((epochDays u : Int) - epochDays t) * 86400000 - t.todMs := by
    intro u hu
    rw [unixMs_tod0 u hu]
    unfold epochMs
    rw [hu]
    push_cast
    ring
  have hred : getLaunchOn (some "month-end") t =
      unixMs (if unixMs (endOfMonthStartOfDay t) - epochMs t < 0
              then addMonthClamp (endOfMonthStartOfDay t)
              else endOfMonthStartOfDay t) - epochMs t := rfl
  have hdiff : epochDays (endOfMonthStartOfDay t)
      = epochDays t + (daysInMonth t.year t.month - t.day) := by
    unfold epochDays endOfMonthStartOfDay
    simp only
    omega
  have hcount : unixMs (endOfMonthStartOfDay t) - epochMs t
      = ((daysInMonth t.year t.month : Int) - t.day) * 86400000 - t.todMs := by
    rw [key _ rfl, hdiff]
    push_cast [Nat.sub_add_cancel]
    have h2 : (((daysInMonth t.year t.month - t.day : Nat)) : Int)
        = (daysInMonth t.year t.month : Int) - t.day := by omega
    rw [h2]
    ring
  have hminD : 1 ≤ min (daysInMonth t.year t.month)
      (daysInMonth (if t.month = 12 then t.year + 1 else t.year)
        (if t.month = 12 then 1 else t.month + 1)) := by omega
  have hrepr : addMonthClamp (endOfMonthStartOfDay t)
      = (⟨(if t.month = 12 then t.year + 1 else t.year),
          (if t.month = 12 then 1 else t.month + 1),
          min (daysInMonth t.year t.month)
            (daysInMonth (if t.month = 12 then t.year + 1 else t.year)
              (if t.month = 12 then 1 else t.month + 1)), 0⟩ : CivilTime) := rfl
  have hnext := epochDays_next_month t hy hm1 hm2
    (min (daysInMonth t.year t.month)
      (daysInMonth (if t.month = 12 then t.year + 1 else t.year)
        (if t.month = 12 then 1 else t.month + 1))) hminD
  have hdiff2 : epochDays ⟨t.year, t.month, daysInMonth t.year t.month, 0⟩
      = epochDays t + (daysInMonth t.year t.month - t.day) := hdiff
  have hadv : unixMs (addMonthClamp (endOfMonthStartOfDay t)) - epochMs t
      = ((daysInMonth t.year t.month - t.day
          + min (daysInMonth t.year t.month)
              (daysInMonth (if t.month = 12 then t.year + 1 else t.year)
                (if t.month = 12 then 1 else t.month + 1)) : Nat) : Int) * 86400000
        - t.todMs := by
    rw [hrepr, key _ rfl]
    rw [hnext, hdiff2]
    have h3 : ((epochDays t + (daysInMonth t.year t.month - t.day)
        + min (daysInMonth t.year t.month)
            (daysInMonth (if t.month = 12 then t.year + 1 else t.year)
              (if t.month = 12 then 1 else t.month + 1)) : Nat) : Int)
        - (epochDays t : Int)
        = ((daysInMonth t.year t.month - t.day
          + min (daysInMonth t.year t.month)
              (daysInMonth (if t.month = 12 then t.year + 1 else t.year)
                (if t.month = 12 then 1 else t.month + 1)) : Nat) : Int) := by
      omega
    rw [h3]
  refine ⟨fun hA => ?_, fun hdL htod0 => ?_, ?_, ?_, ?_, fun hw h0 => ?_⟩
  · rw [hred, if_neg (by rw [hcount]; omega), hcount]
  · rw [hred, if_pos (by rw [hcount]; omega), hadv]
    rw [hdL]
    omega
  · rw [hred]
    split_ifs with hc
    · rw [hadv]
      rw [hcount] at hc
      omega
    · rw [hcount] at hc ⊢
      omega
  · rw [hred]
    split_ifs with hc
    · rw [hadv]
      rw [hcount] at hc
      omega
    · rw [hcount] at hc ⊢
      omega
  · have hredS : getLaunchOn (some "month-start") (⟨t.year, t.month, 1, 0⟩ : CivilTime) =
        unixMs (if unixMs (startOfMonth ⟨t.year, t.month, 1, 0⟩)
                    - epochMs (⟨t.year, t.month, 1, 0⟩ : CivilTime) < 0
                then addMonthClamp (startOfMonth ⟨t.year, t.month, 1, 0⟩)
                else startOfMonth ⟨t.year, t.month, 1, 0⟩)
          - epochMs (⟨t.year, t.month, 1, 0⟩ : CivilTime) := rfl
    have hsm : startOfMonth (⟨t.year, t.month, 1, 0⟩ : CivilTime)
        = (⟨t.year, t.month, 1, 0⟩ : CivilTime) := rfl
    have hux : unixMs (⟨t.year, t.month, 1, 0⟩ : CivilTime)
        = epochMs (⟨t.year, t.month, 1, 0⟩ : CivilTime) :=
      unixMs_tod0 (⟨t.year, t.month, 1, 0⟩ : CivilTime) rfl
    rw [hredS, hsm, hux]
    rw [if_neg (by omega)]
    rw [hux]
    omega
  · have hredW : getLaunchOn (some "week-start") t =
        unixMs (if unixMs (startOfWeek t) - epochMs t < 0
                then addWeek (startOfWeek t)
                else startOfWeek t) - epochMs t := rfl
    have hsw : startOfWeek t = t := by
      unfold startOfWeek
      rw [hw]
      show ({ t with todMs := 0 } : CivilTime) = t
      cases t
      simp_all
    have hux : unixMs t = epochMs t := unixMs_tod0 t h0
    rw [hredW, hsw, hux]
    rw [if_neg (by omega)]
    rw [hux]
    omega

/-- Witness for C6 (amended): from 2021-04-15 01:00 the month-end anchor
is 14 days 23 hours away (April has 30 days). -/
theorem getLaunchOn_month_anchors_witness :
    getLaunchOn (some "month-end") ⟨2021, 4, 15, 3600000⟩ = 1292400000 := by
  have h := (getLaunchOn_month_anchors ⟨2021, 4, 15, 3600000⟩ (by decide)).1 (by decide)
  exact h.trans (by decide)

end Tasks
